import Mathlib

/-!
# POPBAM core statistics: a shallow embedding

This file embeds the core computations of the POPBAM population-genetics
tool (`pop_ld.cpp`, `pop_sfs.cpp`, `pop_utils.cpp`) in Lean 4 and proves
properties about them.

Modelling conventions:

* 64-bit words (`unsigned long long` consensus-base words, site-type
  bit-vectors, population masks) are `ℕ`; where C wrap-around semantics
  matters the reduction `% 2^64` is written out explicitly.
* C `double`/`float` arithmetic is modelled by exact rational arithmetic
  (`ℚ`).  In `ℚ`, division by zero yields `0`.
* Statistics that the program reports as `NA` (either by printing the
  literal string or by storing a quiet NaN) are modelled as `none` of an
  `Option` type; computed values are `some`.
* A few small helpers live in headers that are not part of the sources
  (`popbam.h`, `tables.h`, `ksort.h`); each such definition carries a
  doc comment starting with `Modelled from the spec:`.
-/

/-- Modelled from the spec: `bitcount64` (missing `popbam.h`) counts the
set bits of a 64-bit word. -/
def bitcount64 (x : ℕ) : ℕ :=
  ((List.range 64).filter (fun k => x.testBit k)).length

/-- Modelled from the spec: the `BINOM` macro (missing `popbam.h`), the
binomial coefficient "choose 2": `BINOM(n) = n*(n-1)/2`. -/
def binom2 (k : ℕ) : ℕ := k * (k - 1) / 2

/-- Derived-allele count of a site type restricted to one population:
`bitcount64(types[j] & pop_mask[i])` (`pop_ld.cpp`). -/
def popDerived (mask t : ℕ) : ℕ := bitcount64 (t &&& mask)

/-- The qualifying condition of `calc_zns`/`calc_omegamax`
(`pop_ld.cpp` lines 230, 243): the population-restricted derived count
`x` satisfies `min_freq <= x && x <= n - min_freq`.  (In C the second
comparison is on `int`s; for `minFreq > n` both sides agree that no `x`
qualifies, so `ℕ` truncated subtraction is faithful.) -/
def qualSite (mask n minFreq t : ℕ) : Bool :=
  decide (minFreq ≤ popDerived mask t ∧ popDerived mask t ≤ n - minFreq)

/-- The squared difference `SQ(x0*x1 - n*x11)` as computed in C: the
subtraction and the square are performed in `unsigned long long`
arithmetic, i.e. modulo `2^64` (`pop_ld.cpp` line 246). -/
def sqDiff64 (a b : ℕ) : ℕ :=
  (((a % 18446744073709551616 + 18446744073709551616 - b % 18446744073709551616)
      % 18446744073709551616) ^ 2) % 18446744073709551616

/-- The pairwise `r²` of `calc_zns`/`calc_omegamax` (`pop_ld.cpp` lines
246, 321): `SQ(x0*x1 - n*x11) / (double)((n-x0)*x0*(n-x1)*x1)`.  The
denominator is `int` arithmetic, embedded via `ℤ`. -/
def r2 (mask n t0 t1 : ℕ) : ℚ :=
  (sqDiff64 (popDerived mask t0 * popDerived mask t1)
      (n * bitcount64 ((t0 &&& mask) &&& (t1 &&& mask))) : ℚ) /
    ((((n : ℤ) - popDerived mask t0) * popDerived mask t0 *
      ((n : ℤ) - popDerived mask t1) * popDerived mask t1 : ℤ) : ℚ)

/-- The double loop of `calc_zns` (`pop_ld.cpp` lines 223-250): for each
site `j` that qualifies, add `r²` against every later qualifying site. -/
def znsSum (mask n minFreq : ℕ) : List ℕ → ℚ
  | [] => 0
  | t :: rest =>
      (if qualSite mask n minFreq t then
        ((rest.filter (qualSite mask n minFreq)).map (fun u => r2 mask n t u)).sum
      else 0) + znsSum mask n minFreq rest

/-- The `num_snps[i]` counter as `calc_zns` and `calc_omegamax` leave it
(`pop_ld.cpp` lines 219-251, 294-328): the number of qualifying sites
among the first `segsites - 1` sites, plus an unconditional final
increment; `0` when the window has no segregating site (early return at
line 212). -/
def numSnpsZns (mask n minFreq : ℕ) (types : List ℕ) : ℕ :=
  if types.length < 1 then 0
  else (types.dropLast.countP (qualSite mask n minFreq)) + 1

/-- `zns[i]` after `calc_zns` (`pop_ld.cpp` lines 200-257):
the accumulated pairwise sum times `1.0 / BINOM(num_snps[i])`. -/
def calcZnsVal (mask n minFreq : ℕ) (types : List ℕ) : ℚ :=
  if types.length < 1 then 0
  else znsSum mask n minFreq types * (1 / (binom2 (numSnpsZns mask n minFreq types) : ℚ))

/-- Number of qualifying sites in the window buffer. -/
def qualCount (mask n minFreq : ℕ) (types : List ℕ) : ℕ :=
  types.countP (qualSite mask n minFreq)

/-- Spec-side reformulation: the sum of `r²` over all (unordered) pairs
of qualifying segregating sites.  (Every element of `sublistsLen 2` is a
two-element list `[a, b]` with `a` occurring before `b` in the window;
the pair is read off with `getD`.) -/
def pairR2Sum (mask n minFreq : ℕ) (types : List ℕ) : ℚ :=
  ((types.sublistsLen 2).map (fun p =>
    if qualSite mask n minFreq (p.getD 0 0) ∧ qualSite mask n minFreq (p.getD 1 0) then
      r2 mask n (p.getD 0 0) (p.getD 1 0)
    else 0)).sum

/-- The value that claim C1 asserts `calc_zns` returns: the pairwise sum
divided by `C(q,2)` where `q` is the number of qualifying sites. -/
def znsClaimVal (mask n minFreq : ℕ) (types : List ℕ) : ℚ :=
  pairR2Sum mask n minFreq types / (binom2 (qualCount mask n minFreq types) : ℚ)

/-- The list of qualifying site types of a window, in genomic order. -/
def qualList (mask n minFreq : ℕ) (types : List ℕ) : List ℕ :=
  types.filter (qualSite mask n minFreq)

/-- The `r2` matrix of `calc_omegamax` (`pop_ld.cpp` lines 284-327):
entry `(a, b)` holds the pairwise `r²` of the `a`-th and `b`-th
qualifying sites; the diagonal and all never-written entries keep their
zero initialisation. -/
def r2mat (mask n minFreq : ℕ) (types : List ℕ) (a b : ℕ) : ℚ :=
  if a = b then 0
  else
    match (qualList mask n minFreq types)[a]?, (qualList mask n minFreq types)[b]? with
    | some ta, some tb => r2 mask n ta tb
    | _, _ => 0

/-- `pop_ld.cpp` lines 344-346: the sum of `r2[k][m]` for
`0 ≤ k < m ≤ i` (the left block of split point `i`). -/
def sumLeftAt (R : ℕ → ℕ → ℚ) (i : ℕ) : ℚ :=
  ((List.range i).map (fun k =>
    ((List.range (i - k)).map (fun d => R k (k + 1 + d))).sum)).sum

/-- `pop_ld.cpp` lines 349-351: the sum of `r2[k][m]` for
`i+1 ≤ k ≤ ns-1` and `0 ≤ m ≤ i` (between the two blocks). -/
def sumBetweenAt (R : ℕ → ℕ → ℚ) (ns i : ℕ) : ℚ :=
  ((List.range (ns - (i + 1))).map (fun d =>
    ((List.range (i + 1)).map (fun m => R (i + 1 + d) m)).sum)).sum

/-- `pop_ld.cpp` lines 354-356: the sum of `r2[k][m]` for
`i+1 ≤ k < m ≤ ns-1` (the right block of split point `i`). -/
def sumRightAt (R : ℕ → ℕ → ℚ) (ns i : ℕ) : ℚ :=
  ((List.range (ns - 1 - (i + 1))).map (fun d =>
    ((List.range (ns - 1 - (i + 1 + d))).map (fun e =>
      R (i + 1 + d) (i + 1 + d + 1 + e))).sum)).sum

/-- `omegamax[j]` after `calc_omegamax` (`pop_ld.cpp` lines 259-375).
The running sums `sumleft`, `sumright`, `sumbetween` are initialised
once (lines 334-336) and accumulate over the split points `i = 1,
..., num_snps-2` without being reset; each iteration updates
`omega = (sumleft+sumright)/(BINOM(left)+BINOM(right)) *
left*right/sumbetween` and keeps the maximum. -/
def calcOmegamaxVal (mask n minFreq : ℕ) (types : List ℕ) : ℚ :=
  if types.length < 1 then 0
  else
    (((List.range (numSnpsZns mask n minFreq types - 2)).map (fun d => 1 + d)).foldl
      (fun st i =>
        let ns := numSnpsZns mask n minFreq types
        let R := r2mat mask n minFreq types
        let SL := st.1 + sumLeftAt R i
        let SB := st.2.1 + sumBetweenAt R ns i
        let SR := st.2.2.1 + sumRightAt R ns i
        let om := (SL + SR) / ((binom2 (i + 1) : ℚ) + (binom2 (ns - (i + 1)) : ℚ))
            * (((i + 1) * (ns - (i + 1)) : ℕ) : ℚ) / SB
        (SL, SB, SR, if st.2.2.2 < om then om else st.2.2.2))
      (0, 0, 0, 0)).2.2.2

/-- The per-split omega of claim C2: `sumLeft`, `sumRight`, `sumBetween`
computed over split point `i` alone. -/
def omegaClaimAt (R : ℕ → ℕ → ℚ) (ns i : ℕ) : ℚ :=
  (sumLeftAt R i + sumRightAt R ns i)
      / ((binom2 (i + 1) : ℚ) + (binom2 (ns - (i + 1)) : ℚ))
    * (((i + 1) * (ns - (i + 1)) : ℕ) : ℚ) / sumBetweenAt R ns i

/-- The value claim C2 asserts: the maximum of `omegaClaimAt` over the
split points `1 ≤ i < numSNPs - 1`, skipping split points whose
between-block sum is zero. -/
def omegaClaimMax (mask n minFreq : ℕ) (types : List ℕ) : ℚ :=
  ((List.range (qualCount mask n minFreq types - 2)).map (fun d => 1 + d)).foldl
    (fun mx i =>
      if sumBetweenAt (r2mat mask n minFreq types) (qualCount mask n minFreq types) i = 0
      then mx
      else max mx (omegaClaimAt (r2mat mask n minFreq types)
        (qualCount mask n minFreq types) i))
    0

/-- State of the `calc_wall` scan (`pop_ld.cpp` lines 377-460).  Note
that `last_type` is a single variable shared by all populations, as in
the source. -/
structure WallState where
  lastType : ℕ
  numSnps : ℕ → ℕ
  numCongruent : ℕ → ℕ
  numPart : ℕ → ℕ
  uniq : ℕ → List ℕ

def wallInit : WallState :=
  ⟨0, fun _ => 0, fun _ => 0, fun _ => 0, fun _ => []⟩

/-- The population-restricted bipartition pattern and its complement
(`pop_ld.cpp` lines 409-417): for each sample index `k < sm->n`, bit `k`
goes to `type` when both the site type and the mask have it, and to
`complem` when only the mask has it.  `CHECK_BIT` is modelled from the
spec as a single-bit test (missing `popbam.h`). -/
def wallTypeOf (nsamples t mask : ℕ) : ℕ × ℕ :=
  (List.range nsamples).foldl
    (fun tc k =>
      if t.testBit k ∧ mask.testBit k then (tc.1 ||| (1 <<< k), tc.2)
      else if ¬ t.testBit k ∧ mask.testBit k then (tc.1, tc.2 ||| (1 <<< k))
      else tc)
    (0, 0)

/-- The variability test of `calc_wall` (`pop_ld.cpp` line 420):
`(type > 0) && (type < pop_mask[j])`. -/
def wallPolyCond (nsamples mask t : ℕ) : Bool :=
  decide (0 < (wallTypeOf nsamples t mask).1 ∧ (wallTypeOf nsamples t mask).1 < mask)

/-- The body of the per-population branch of `calc_wall` (`pop_ld.cpp`
lines 402-446) for population `p` at one site of type `t`. -/
def wallPopStep (nsamples : ℕ) (masks : ℕ → ℕ) (t : ℕ) (s : WallState) (p : ℕ) :
    WallState :=
  let ty := (wallTypeOf nsamples t (masks p)).1
  let co := (wallTypeOf nsamples t (masks p)).2
  if 0 < ty ∧ ty < masks p then
    if s.numSnps p = 0 then
      ⟨ty, Function.update s.numSnps p (s.numSnps p + 1), s.numCongruent, s.numPart,
        Function.update s.uniq p (s.uniq p ++ [ty])⟩
    else
      if ty = s.lastType ∨ co = s.lastType then
        if (s.uniq p).count ty = 0 ∧ (s.uniq p).count co = 0 then
          ⟨ty, Function.update s.numSnps p (s.numSnps p + 1),
            Function.update s.numCongruent p (s.numCongruent p + 1),
            Function.update s.numPart p (s.numPart p + 1),
            Function.update s.uniq p (s.uniq p ++ [ty])⟩
        else
          ⟨ty, Function.update s.numSnps p (s.numSnps p + 1),
            Function.update s.numCongruent p (s.numCongruent p + 1),
            s.numPart, s.uniq⟩
      else
        ⟨ty, Function.update s.numSnps p (s.numSnps p + 1),
          s.numCongruent, s.numPart, s.uniq⟩
  else s

/-- One site of the `calc_wall` scan: the inner loop over populations
(`pop_ld.cpp` lines 402-447). -/
def wallSiteStep (nsamples npops : ℕ) (masks : ℕ → ℕ) (s : WallState) (t : ℕ) :
    WallState :=
  (List.range npops).foldl (wallPopStep nsamples masks t) s

/-- The full `calc_wall` scan over the window buffer (`pop_ld.cpp`
lines 387-448), including the `segsites < 1` early return. -/
def wallFold (nsamples npops : ℕ) (masks : ℕ → ℕ) (types : List ℕ) : WallState :=
  if types.length < 1 then wallInit
  else types.foldl (wallSiteStep nsamples npops masks) wallInit

/-- `wallb[i]` (`pop_ld.cpp` line 453): `num_congruent / (num_snps - 1)`
with the subtraction on `int`s, embedded via `ℚ`. -/
def wallBVal (w : WallState) (j : ℕ) : ℚ :=
  (w.numCongruent j : ℚ) / ((w.numSnps j : ℚ) - 1)

/-- `wallq[i]` (`pop_ld.cpp` line 454). -/
def wallQVal (w : WallState) (j : ℕ) : ℚ :=
  ((w.numCongruent j + w.numPart j : ℕ) : ℚ) / (w.numSnps j : ℚ)

/-- Number of sites of the window that are polymorphic within
population `j` in the sense of `calc_wall`. -/
def wallPolyCount (nsamples mask : ℕ) (types : List ℕ) : ℕ :=
  types.countP (wallPolyCond nsamples mask)

/-- The per-population Zns report of `print_ld` (`pop_ld.cpp` lines
639-685): the value is printed only when `num_snps[i] >= min_snps`,
otherwise the literal `NA` is printed. -/
def reportZns (mask n minFreq : ℕ) (types : List ℕ) (minSnps : ℤ) : Option ℚ :=
  if (numSnpsZns mask n minFreq types : ℤ) < minSnps then none
  else some (calcZnsVal mask n minFreq types)

/-- The per-population omega-max report of `print_ld`. -/
def reportOmax (mask n minFreq : ℕ) (types : List ℕ) (minSnps : ℤ) : Option ℚ :=
  if (numSnpsZns mask n minFreq types : ℤ) < minSnps then none
  else some (calcOmegamaxVal mask n minFreq types)

/-- The per-population Wall B/Q report of `print_ld`; `num_snps[i]` is
the counter left by `calc_wall`. -/
def reportWall (nsamples npops : ℕ) (masks : ℕ → ℕ) (types : List ℕ) (j : ℕ)
    (minSnps : ℤ) : Option (ℚ × ℚ) :=
  if ((wallFold nsamples npops masks types).numSnps j : ℤ) < minSnps then none
  else some (wallBVal (wallFold nsamples npops masks types) j,
    wallQVal (wallFold nsamples npops masks types) j)

/-- The coverage guard of `calc_sfs` (`pop_sfs.cpp` line 259):
`ns[i] >= (unsigned long int)((end - beg) * min_sites)`.  The C cast
truncates the `double` product toward zero; `minSites` is a
non-negative fraction, modelled by `Int.toNat ∘ Int.floor`. -/
def sfsNA (ns len : ℕ) (minSites : ℚ) : Bool :=
  decide (¬ ((⌊(len : ℚ) * minSites⌋).toNat ≤ ns))

/-- Tajima's D and Fay-Wu H as reported by `calc_sfs`/`print_sfs`
(`pop_sfs.cpp` lines 257-296, 299-323): when the guard fails both
statistics are set to quiet NaN and printed as `NA` (modelled `none`);
otherwise the computed values (passed here as `td`, `fwh`) are
printed. -/
def calcSfsPopReport (ns len : ℕ) (minSites : ℚ) (td fwh : ℚ) :
    Option ℚ × Option ℚ :=
  if sfsNA ns len minSites then (none, none) else (some td, some fwh)

/-- Modelled from the spec: `FLT_MAX`, the initial value of the
minimum scan in `gl2cns` (`pop_utils.cpp` line 52), as an exact
rational: `(2 - 2^-23) * 2^127`. -/
def fltMax : ℚ := 2 ^ 128 - 2 ^ 104

/-- The flat indices `i << 2 | j` visited by the double loop of
`gl2cns` (`pop_utils.cpp` lines 57-71): `i < 4`, `j` from `i` to 3, in
this order (`NBASES = 4`, modelled from the spec's 4-symbol base
alphabet). -/
def glPairs : List ℕ := [0, 1, 2, 3, 5, 6, 7, 10, 11, 15]

/-- State of the minimum scan of `gl2cns`: running minimum `mn`,
runner-up `mnext`, and the index `min_ij` of the minimum. -/
structure GlScan where
  mn : ℚ
  mnext : ℚ
  idx : ℕ

/-- One step of the `gl2cns` scan (`pop_utils.cpp` lines 61-69). -/
def glStep (q : ℕ → ℚ) (s : GlScan) (i : ℕ) : GlScan :=
  if q i < s.mn then ⟨q i, s.mn, i⟩
  else if q i < s.mnext then ⟨s.mn, q i, s.idx⟩
  else s

/-- The full minimum scan of `gl2cns` over the ten genotype pairs. -/
def glScan (q : ℕ → ℚ) : GlScan :=
  glPairs.foldl (glStep q) ⟨fltMax, fltMax, 0⟩

/-- The SNP-quality value of `gl2cns` (`pop_utils.cpp` line 74):
`(unsigned long long)((min_next - min) + 0.499)`, i.e. truncation of
the rounded likelihood gap. -/
def glGap (q : ℕ → ℚ) : ℕ :=
  (⌊(glScan q).mnext - (glScan q).mn + 499 / 1000⌋).toNat

/-- `gl2cns` (`pop_utils.cpp` lines 44-79): packs the SNP quality at
bits 32-47, the read depth `k` at bits 16-31 and the genotype `min_ij`
at bits 8-15 of a 64-bit word (`snp_quality + num_reads + genotype`,
reduced modulo `2^64` as in C). -/
def gl2cns (q : ℕ → ℚ) (k : ℕ) : ℕ :=
  (glGap q <<< 32 + k <<< 16 + (glScan q).idx <<< 8) % 18446744073709551616

/-- The SNP-confidence field of a call word: bits 32-47
(`(cb >> 32) & 0xffff`, see the layout comment in `pop_utils.cpp`). -/
def cwConf (w : ℕ) : ℕ := (w >>> 32) % 65536

/-- The read-depth field of a call word: bits 16-31. -/
def cwDepth (w : ℕ) : ℕ := (w >>> 16) % 65536

/-- The genotype field of a call word: bits 8-15. -/
def cwGeno (w : ℕ) : ℕ := (w >>> 8) % 256

/-- The confidence value claim C3 asserts is stored: the rounded gap
clamped to 16 bits. -/
def confClampSpec (q : ℕ → ℚ) : ℕ := min (glGap q) 65535

/-- Invariant of the `gl2cns` minimum scan after processing the indices
in `seen`: `mn` is the least value seen (or the `FLT_MAX` sentinel),
`idx` attains it, and `mnext` is the least value at the remaining
indices. -/
def GlInv (q : ℕ → ℚ) (seen : List ℕ) (s : GlScan) : Prop :=
  s.mn ≤ s.mnext ∧
  (∀ i ∈ seen, s.mn ≤ q i) ∧
  (s.mn = fltMax ∨ (s.idx ∈ seen ∧ q s.idx = s.mn)) ∧
  (∀ i ∈ seen, i ≠ s.idx → s.mnext ≤ q i) ∧
  (s.mnext = fltMax ∨ ∃ i ∈ seen, i ≠ s.idx ∧ q i = s.mnext)

/-- A constant all-zero likelihood table, used by the C3 witness. -/
def qZeros : ℕ → ℚ := fun _ => 0

/-- A likelihood table whose gap between minimum and runner-up is
exactly `2^16`, used by the C3 counterexample. -/
def qBigGap : ℕ → ℚ := fun i => if i = 0 then 0 else 65536

/-- C `unsigned long long` compound assignment `x += d` with a signed
delta: add over `ℤ` and reduce modulo `2^64`. -/
def u64add (x : ℕ) (d : ℤ) : ℕ :=
  (((x : ℤ) + d) % (18446744073709551616 : ℤ)).toNat

/-- The genotype byte of a call word: `(cb >> 8) & 0xff`
(`pop_utils.cpp` line 163). -/
def cwGenoByte (cb : ℕ) : ℕ := (cb >>> 8) % 256

/-- `allele1 = (genotype >> 2) & 0x3` (`pop_utils.cpp` line 164). -/
def cwA1 (cb : ℕ) : ℕ := (cwGenoByte cb >>> 2) % 4

/-- `allele2 = genotype & 0x3` (`pop_utils.cpp` line 165). -/
def cwA2 (cb : ℕ) : ℕ := cwGenoByte cb % 4

/-- `snp_quality = (cb >> 32) & 0xffff` (`pop_utils.cpp` line 166). -/
def cwSnpQ (cb : ℕ) : ℕ := (cb >>> 32) % 65536

/-- One sample of `cleanHeterozygotes` (`pop_utils.cpp` lines 153-185).
`ref` is the 2-bit base code `iupac_rev[ref]` of the reference base
(the `iupac_rev` table lives in the missing `tables.h` and is modelled
from the spec as the 4-symbol base code of the reference).  The two
`if` blocks (high-quality and low-quality heterozygote) and the two
field updates inside each are applied in source order; all four read
the allele and quality values extracted before any update. -/
def cleanHetOne (ref minQ : ℕ) (cb : ℕ) : ℕ :=
  let a1 := cwA1 cb
  let a2 := cwA2 cb
  let sq := cwSnpQ cb
  let d : ℤ := (a2 : ℤ) - (a1 : ℤ)
  let cb1 := if a1 ≠ a2 ∧ minQ ≤ sq then
      (if a1 = ref then u64add cb (d * 1024) else cb)
    else cb
  let cb2 := if a1 ≠ a2 ∧ minQ ≤ sq then
      (if a2 = ref then u64add cb1 (-(d * 256)) else cb1)
    else cb1
  let cb3 := if a1 ≠ a2 ∧ sq < minQ then
      (if a1 ≠ ref then u64add cb2 (d * 1024) else cb2)
    else cb2
  if a1 ≠ a2 ∧ sq < minQ then
    (if a2 ≠ ref then u64add cb3 (-(d * 256)) else cb3)
  else cb3

/-- `cleanHeterozygotes` over the per-sample call-word array
(`pop_utils.cpp` lines 153-185). -/
def cleanHeterozygotes (ref minQ : ℕ) (cbs : List ℕ) : List ℕ :=
  cbs.map (cleanHetOne ref minQ)

/-- The tally condition of `segBase` (`pop_utils.cpp` line 122): the
call is homozygous, differs from the reference, and has SNP quality at
least `min_snpq`.  The `iupac` table lives in the missing `tables.h`;
for a homozygous genotype the IUPAC symbol is the base itself, so
`iupac[genotype] != ref` is modelled as `allele1 ≠ refCode` with
`refCode = iupac_rev[ref]` (modelled from the spec). -/
def segCond (ref minQ : ℕ) (cb : ℕ) : Bool :=
  decide (cwA1 cb = cwA2 cb ∧ cwA1 cb ≠ ref ∧ minQ ≤ cwSnpQ cb)

/-- The per-sample mutation of `segBase` (`pop_utils.cpp` lines
114-135): qualifying homozygous non-reference calls get the variant
bit; low-quality homozygous non-reference calls are reverted toward the
reference by the two subtractions at lines 130-131. -/
def segMut (ref minQ : ℕ) (cb : ℕ) : ℕ :=
  if cwA1 cb = cwA2 cb ∧ cwA1 cb ≠ ref ∧ minQ ≤ cwSnpQ cb then cb ||| 2
  else if cwA1 cb = cwA2 cb ∧ cwA1 cb ≠ ref ∧ cwSnpQ cb < minQ then
    u64add (u64add cb (-(((cwGenoByte cb : ℤ) - (ref : ℤ)) * 256)))
      (-(((cwGenoByte cb : ℤ) - (ref : ℤ)) * 1024))
  else cb

/-- The `allele1` values tallied into `baseCount` by `segBase`. -/
def segBaseTally (ref minQ : ℕ) (cbs : List ℕ) : List ℕ :=
  (cbs.filter (segCond ref minQ)).map cwA1

/-- `baseCount[b]` after the tally loop of `segBase`. -/
def segBaseCount (ref minQ : ℕ) (cbs : List ℕ) (b : ℕ) : ℕ :=
  (segBaseTally ref minQ cbs).count b

/-- `segBase` (`pop_utils.cpp` lines 103-151): the mutated call words
and the return value.  The final loop counts how many of the four
`baseCount` entries are positive (`j`) and remembers the last positive
index (`k`); more than one positive entry returns the multi-allelic
signal `-1`, otherwise `baseCount[k]` is returned. -/
def segBase (ref minQ : ℕ) (cbs : List ℕ) : List ℕ × ℤ :=
  (cbs.map (segMut ref minQ),
   if 1 < (List.range 4).countP (fun b => decide (0 < segBaseCount ref minQ cbs b))
   then -1
   else (segBaseCount ref minQ cbs
     ((List.range 4).foldl (fun k b => if 0 < segBaseCount ref minQ cbs b then b else k) 0) : ℤ))

/-- The coefficient tables of the error model (`errmod_coef_t`,
built by `cal_coef` from `pow`/`log`; their transcendental contents are
not reproduced here, so the tables are parameters of the embedding,
indexed exactly as in the C code). -/
structure ErrmodCoef where
  fk : ℕ → ℚ
  beta : ℕ → ℚ
  lhet : ℕ → ℚ

/-- The running sums of `errmod_cal` (`call_aux_t`). -/
structure ErrAux where
  fsum : ℕ → ℚ
  bsum : ℕ → ℚ
  c : ℕ → ℕ
  w : ℕ → ℕ

def errAuxInit : ErrAux := ⟨fun _ => 0, fun _ => 0, fun _ => 0, fun _ => 0⟩

/-- One iteration of the esum/fsum loop of `errmod_cal`
(`pop_utils.cpp` lines 299-311) on one encoded base observation `b`
(qual:6, strand:1, base:4): `q = b>>5 < 4 ? 4 : b>>5` clamped to 63,
`k = b & 0x1f`, and the four updates at `k & 0xf` (with `NBASES = 4`
modelled from the spec). -/
def errAuxStep (em : ErrmodCoef) (n : ℕ) (a : ErrAux) (b : ℕ) : ErrAux :=
  let qv0 := if b >>> 5 < 4 then 4 else b >>> 5
  let qv := if 63 < qv0 then 63 else qv0
  let k := b % 32
  let kb := k % 16
  ⟨Function.update a.fsum kb (a.fsum kb + em.fk (a.w k)),
   Function.update a.bsum kb
     (a.bsum kb + em.fk (a.w k) * em.beta (qv * 65536 + n * 256 + a.c kb)),
   Function.update a.c kb (a.c kb + 1),
   Function.update a.w k (a.w k + 1)⟩

/-- Sum of `bsum` over the base symbols `< m` outside `excl`
(the homozygous/heterozygous exclusion sums of `errmod_cal`). -/
def errSumB (a : ErrAux) (m : ℕ) (excl : List ℕ) : ℚ :=
  (((List.range m).filter (fun i => decide (i ∉ excl))).map a.bsum).sum

/-- Sum of the counters `c` over the base symbols `< m` outside
`excl`. -/
def errSumC (a : ErrAux) (m : ℕ) (excl : List ℕ) : ℕ :=
  (((List.range m).filter (fun i => decide (i ∉ excl))).map a.c).sum

/-- The raw likelihood entry `(j, k)` generated by `errmod_cal`
(`pop_utils.cpp` lines 314-364) before the final non-negativity clamp:
the diagonal gets `tmp1` when any other base was seen, and the
off-diagonal pair gets `-4.343 * lhet[cjk<<8 | c[hi]] (+ tmp1)`. -/
def errQRaw (em : ErrmodCoef) (a : ErrAux) (m j k : ℕ) : ℚ :=
  if j = k then
    (if errSumC a m [j] ≠ 0 then errSumB a m [j] else 0)
  else
    (-4343 / 1000) * em.lhet ((a.c (min j k) + a.c (max j k)) * 256 + a.c (max j k))
      + (if errSumC a m [min j k, max j k] ≠ 0 then errSumB a m [min j k, max j k]
         else 0)

/-- `errmod_cal` (`pop_utils.cpp` lines 271-372).  The caller's `n` is
`bases.length`.  `ks_shuffle` (missing `ksort.h`) is modelled from the
spec as an arbitrary permutation parameter `shuffle`, applied before
the downsample to 255 observations; `ks_introsort` is modelled as
ascending insertion sort.  Returns the C return value and the
likelihood buffer `q` (zero outside `[0, m*m)`, as left by `memset`). -/
def errmodCal (em : ErrmodCoef) (m : ℕ) (bases : List ℕ)
    (shuffle : List ℕ → List ℕ) : ℤ × (ℕ → ℚ) :=
  if m > m then (-1, fun _ => 0)
  else if bases.length = 0 then (0, fun _ => 0)
  else
    let n := if 255 < bases.length then 255 else bases.length
    let bs := if 255 < bases.length then (shuffle bases).take 255 else bases
    let sorted := List.insertionSort (· ≤ ·) bs
    let a := sorted.reverse.foldl (errAuxStep em n) errAuxInit
    (0, fun idx =>
      if idx < m * m then
        (if errQRaw em a m (idx / m) (idx % m) < 0 then 0
         else errQRaw em a m (idx / m) (idx % m))
      else 0)

/-- All-zero coefficient tables, used by the C9 witness. -/
def emZeros : ErrmodCoef := ⟨fun _ => 0, fun _ => 0, fun _ => 0⟩

/-- `qualFilter` (`pop_utils.cpp` lines 81-101): per sample, if the RMS
mapping quality (bits 48-63) is at least `min_rmsQ` and the read depth
(bits 16-31) lies in `[min_depth, max_depth]`, set the pass bit of the
call word and the sample's bit of the returned coverage mask. -/
def qualFilter (minRms minD maxD : ℕ) (cbs : List ℕ) : List ℕ × ℕ :=
  let r := cbs.foldl
    (fun (acc : List ℕ × ℕ × ℕ) (cb : ℕ) =>
      let i := acc.2.2
      let rms := (cb >>> 48) % 65536
      let nr := (cb >>> 16) % 65536
      if minRms ≤ rms ∧ minD ≤ nr ∧ nr ≤ maxD then
        (acc.1 ++ [cb ||| 1], (acc.2.1 ||| (1 <<< i), i + 1))
      else (acc.1 ++ [cb], (acc.2.1, i + 1)))
    ([], 0, 0)
  (r.1, r.2.1)

/-- Modelled from the spec: `cal_site_type` (missing from the sources):
the site-type bit-vector has bit `i` set iff sample `i` is
homozygous-non-reference and pass-filtered, i.e. iff both low flag bits
of its call word are set. -/
def calSiteType (cbs : List ℕ) : ℕ :=
  (List.range cbs.length).foldl
    (fun t i => if (cbs.getD i 0) % 4 = 3 then t ||| (1 <<< i) else t) 0

/-- The run parameters consumed by `make_ld` (`pop_ld.cpp` lines
139-198): window bounds, reference bases, thresholds, the
heterozygote-aware flag and the population layout. -/
structure LdCfg where
  beg : ℕ
  endp : ℕ
  refBase : ℕ → ℕ
  minSnpQ : ℕ
  minRms : ℕ
  minDepth : ℕ
  maxDepth : ℕ
  hetFlag : Bool
  npops : ℕ
  popMask : ℕ → ℕ
  popNsmpl : ℕ → ℕ

/-- The per-window mutable state touched by `make_ld`: the aligned-site
counter `num_sites`, the segregating-site counter `segsites`, the
site-type buffer (as the list of entries written so far) and the
`pop_cov` array. -/
structure LdState where
  numSites : ℕ
  segsites : ℕ
  typesBuf : List ℕ
  popCov : ℕ → ℕ

/-- The state after `init_ld` (`pop_ld.cpp` lines 589-624): all
counters zero, all buffers zeroed. -/
def ldInit : LdState := ⟨0, 0, [], fun _ => 0⟩

/-- The population-coverage bits OR-ed into `pop_cov[num_sites]`
(`pop_ld.cpp` lines 177-184): bit `i` iff every sample of population
`i` passed the quality filters. -/
def popCovBits (cfg : LdCfg) (cov : ℕ) : ℕ :=
  (List.range cfg.npops).foldl
    (fun pc i =>
      if bitcount64 (cov &&& cfg.popMask i) = cfg.popNsmpl i then pc ||| (1 <<< i)
      else pc)
    0

/-- One invocation of `make_ld` (`pop_ld.cpp` lines 139-198) on a
pileup column at position `col.1` with called consensus words `col.2`
(the output of `call_base`, which lives outside the sources and is
therefore an input here).  Mirrors the source: the in-window test, the
optional heterozygote cleaning, `segbase`, `qfilter`, the population
coverage bits, and the two guarded increments. -/
def makeLdStep (cfg : LdCfg) (s : LdState) (col : ℕ × List ℕ) : LdState :=
  if cfg.beg ≤ col.1 ∧ col.1 < cfg.endp then
    let cb1 := if cfg.hetFlag then col.2
      else cleanHeterozygotes (cfg.refBase col.1) cfg.minSnpQ col.2
    let sb := segBase (cfg.refBase col.1) cfg.minSnpQ cb1
    let qf := qualFilter cfg.minRms cfg.minDepth cfg.maxDepth sb.1
    let pc := s.popCov s.numSites ||| popCovBits cfg qf.2
    if 0 < pc then
      if 0 < sb.2 then
        ⟨s.numSites + 1, s.segsites + 1, s.typesBuf ++ [calSiteType qf.1],
          Function.update s.popCov s.numSites pc⟩
      else
        ⟨s.numSites + 1, s.segsites, s.typesBuf,
          Function.update s.popCov s.numSites pc⟩
    else
      ⟨s.numSites, s.segsites, s.typesBuf, Function.update s.popCov s.numSites pc⟩
  else s

/-- A whole window of `make_ld` invocations from the `init_ld` state. -/
def ldRun (cfg : LdCfg) (cols : List (ℕ × List ℕ)) : LdState :=
  cols.foldl (makeLdStep cfg) ldInit

-- ## Helper lemmas about the pairwise sum

theorem sum_map_ite_filter (p : ℕ → Bool) (f : ℕ → ℚ) (l : List ℕ) :
    (l.map (fun u => if p u then f u else 0)).sum = ((l.filter p).map f).sum := by
  induction l with
  | nil => simp
  | cons a l ih =>
      by_cases h : p a <;> simp [h, ih]

theorem sum_map_sublists2_cons (G : List ℕ → ℚ) (t : ℕ) (l : List ℕ) :
    ((List.sublistsLen 2 (t :: l)).map G).sum
      = ((List.sublistsLen 2 l).map G).sum + (l.map (fun u => G [t, u])).sum := by
  rw [List.sublistsLen_succ_cons, List.map_append, List.sum_append]
  congr 1
  rw [List.map_map, List.sublistsLen_one, List.map_map, List.map_reverse,
    List.sum_reverse]
  congr 1

theorem znsSum_eq_pairR2Sum (mask n minFreq : ℕ) (types : List ℕ) :
    znsSum mask n minFreq types = pairR2Sum mask n minFreq types := by
  induction types with
  | nil => simp [znsSum, pairR2Sum]
  | cons t rest ih =>
      rw [znsSum, ih]
      unfold pairR2Sum
      rw [sum_map_sublists2_cons, add_comm]
      congr 1
      simp only [List.getD_cons_zero, List.getD_cons_succ]
      by_cases hq : qualSite mask n minFreq t
      · simp only [hq, true_and, if_true]
        rw [← sum_map_ite_filter (qualSite mask n minFreq) (fun u => r2 mask n t u) rest]
      · simp [hq]

theorem r2_comm (mask n a b : ℕ) : r2 mask n a b = r2 mask n b a := by
  unfold r2
  rw [Nat.land_comm (a &&& mask) (b &&& mask),
    Nat.mul_comm (popDerived mask a) (popDerived mask b)]
  congr 1
  push_cast
  ring

theorem znsSum_perm (mask n f : ℕ) {l1 l2 : List ℕ} (h : l1.Perm l2) :
    znsSum mask n f l1 = znsSum mask n f l2 := by
  induction h with
  | nil => rfl
  | cons x h ih =>
      rw [znsSum, znsSum, ih]
      congr 1
      by_cases hq : qualSite mask n f x
      · simp only [hq, if_true]
        exact List.Perm.sum_eq ((h.filter _).map _)
      · simp [hq]
  | swap x y l =>
      rw [znsSum, znsSum, znsSum, znsSum]
      by_cases hx : qualSite mask n f x <;> by_cases hy : qualSite mask n f y <;>
        simp [List.filter_cons, hx, hy, r2_comm mask n y x] <;> ring
  | trans h1 h2 ih1 ih2 => exact ih1.trans ih2

theorem countP_dropLast_add (p : ℕ → Bool) (l : List ℕ) (hne : l ≠ []) :
    l.dropLast.countP p + (if p (l.getLast hne) then 1 else 0) = l.countP p := by
  conv_rhs => rw [← List.dropLast_append_getLast hne]
  rw [List.countP_append]
  simp [List.countP_cons]

/-- C1 (amended): `calc_zns` returns the sum of `r²` over all pairs of
qualifying sites divided by `BINOM(num_snps)`, where `num_snps` counts
the qualifying sites among all but the last buffered site plus an
unconditional one for the final site (so it equals the qualifying count
only when the last site qualifies); in the concrete two-site scenario
(n = 10, x0 = 3, x1 = 4, x11 = 2) the result is 64/504 as claimed. -/
theorem C1_zns_pair_average :
    (∀ mask n minFreq types, types ≠ ([] : List ℕ) →
      calcZnsVal mask n minFreq types
        = pairR2Sum mask n minFreq types
            * (1 / (binom2 (numSnpsZns mask n minFreq types) : ℚ)))
    ∧ calcZnsVal 1023 10 1 [7, 30] = 64 / 504 := by
  constructor
  · intro mask n minFreq types h
    have hlen : ¬ (types.length < 1) := by
      have := List.length_pos.mpr h
      omega
    rw [calcZnsVal, if_neg hlen, znsSum_eq_pairR2Sum]
  · with_unfolding_all decide

theorem C1_zns_pair_average_witness :
    ([7, 30] ≠ ([] : List ℕ)) ∧
      calcZnsVal 1023 10 1 [7, 30]
        = pairR2Sum 1023 10 1 [7, 30]
            * (1 / (binom2 (numSnpsZns 1023 10 1 [7, 30]) : ℚ)) :=
  ⟨by decide, C1_zns_pair_average.1 1023 10 1 [7, 30] (by decide)⟩

/-- C1 counterexample: with window buffer `[7, 30, 0]` (sites with
population-restricted derived counts 3, 4 and 0, population of 10
samples, `min_freq = 1`) there are exactly 2 qualifying sites, yet
`calc_zns` divides by `BINOM(3) = 3` (the non-qualifying final site
inflates `num_snps`), returning 8/189 instead of the claimed
`(64/504)/C(2,2) = 8/63`. -/
theorem C1_zns_counterexample :
    calcZnsVal 1023 10 1 [7, 30, 0] ≠ znsClaimVal 1023 10 1 [7, 30, 0] ∧
    qualCount 1023 10 1 [7, 30, 0] = 2 ∧
    calcZnsVal 1023 10 1 [7, 30, 0] = 8 / 189 ∧
    znsClaimVal 1023 10 1 [7, 30, 0] = 8 / 63 := by with_unfolding_all decide

/-- C6 (amended): the pairwise `r²` accumulator of `calc_zns` is
invariant under every permutation of the segregating sites; the full
`Zns` value is invariant under permutations that preserve whether the
final buffered site qualifies (in particular under all permutations of
a buffer whose sites all qualify).  It is not invariant in general,
because the divisor `BINOM(num_snps)` counts the final site
unconditionally (see the counterexample). -/
theorem C6_zns_perm :
    (∀ mask n minFreq (l1 l2 : List ℕ), l1.Perm l2 →
        znsSum mask n minFreq l1 = znsSum mask n minFreq l2)
    ∧ (∀ mask n minFreq (l1 l2 : List ℕ), l1.Perm l2 →
        l1.getLast?.map (qualSite mask n minFreq)
          = l2.getLast?.map (qualSite mask n minFreq) →
        calcZnsVal mask n minFreq l1 = calcZnsVal mask n minFreq l2) := by
  constructor
  · intro mask n minFreq l1 l2 h
    exact znsSum_perm mask n minFreq h
  · intro mask n minFreq l1 l2 h hlast
    rcases eq_or_ne l1 [] with h1 | h1
    · subst h1
      have h2 : l2 = [] := h.symm.eq_nil
      subst h2
      rfl
    · have h2 : l2 ≠ [] := by
        intro he
        subst he
        exact h1 h.eq_nil
      have hnum : numSnpsZns mask n minFreq l1 = numSnpsZns mask n minFreq l2 := by
        have e1 := countP_dropLast_add (qualSite mask n minFreq) l1 h1
        have e2 := countP_dropLast_add (qualSite mask n minFreq) l2 h2
        have hc : l1.countP (qualSite mask n minFreq) = l2.countP (qualSite mask n minFreq) :=
          h.countP_eq _
        have hq2 : qualSite mask n minFreq (l1.getLast h1)
            = qualSite mask n minFreq (l2.getLast h2) := by
          rw [List.getLast?_eq_getLast l1 h1, List.getLast?_eq_getLast l2 h2] at hlast
          simpa using hlast
        have hg : (if qualSite mask n minFreq (l1.getLast h1) then 1 else 0)
            = (if qualSite mask n minFreq (l2.getLast h2) then (1 : ℕ) else 0) := by
          rw [hq2]
        have hl1 : ¬ (l1.length < 1) := by
          have := List.length_pos.mpr h1
          omega
        have hl2 : ¬ (l2.length < 1) := by
          have := List.length_pos.mpr h2
          omega
        rw [numSnpsZns, numSnpsZns, if_neg hl1, if_neg hl2]
        omega
      have hl1 : ¬ (l1.length < 1) := by
        have := List.length_pos.mpr h1
        omega
      have hl2 : ¬ (l2.length < 1) := by
        have := List.length_pos.mpr h2
        omega
      rw [calcZnsVal, calcZnsVal, if_neg hl1, if_neg hl2,
        znsSum_perm mask n minFreq h, hnum]

theorem C6_zns_perm_witness :
    znsSum 1023 10 1 [7, 30] = znsSum 1023 10 1 [30, 7] ∧
      calcZnsVal 1023 10 1 [7, 30] = calcZnsVal 1023 10 1 [30, 7] :=
  ⟨C6_zns_perm.1 1023 10 1 [7, 30] [30, 7] (List.Perm.swap 30 7 []),
   C6_zns_perm.2 1023 10 1 [7, 30] [30, 7] (List.Perm.swap 30 7 []) (by decide)⟩

/-- C6 counterexample: `[7, 30, 0]` and `[7, 0, 30]` contain the same
sites, but moving the non-qualifying site `0` out of the final position
changes `num_snps` (3 versus 2), so the reported Zns changes from 8/189
to 8/63. -/
theorem C6_zns_perm_counterexample :
    ([7, 30, 0] : List ℕ).Perm [7, 0, 30] ∧
      calcZnsVal 1023 10 1 [7, 30, 0] ≠ calcZnsVal 1023 10 1 [7, 0, 30] :=
  ⟨List.Perm.cons 7 (List.Perm.swap 0 30 []), by with_unfolding_all decide⟩

/-- C2: evaluation of `calc_omegamax` at a concrete window exhibiting
the divergence from the claim.  With four qualifying sites `[3, 5, 3,
5]` over a population of 4 samples (`pop_mask = 0xF`, `min_freq = 1`),
the per-split omegas are `omega(1) = 0` and `omega(2) = 1`, so the
claimed maximum is `1`; the code instead accumulates `sumleft`,
`sumright` and `sumbetween` across split points without resetting them
and returns `1/3`. -/
theorem C2_omegamax_eval :
    calcOmegamaxVal 15 4 1 [3, 5, 3, 5] = 1 / 3 ∧
    omegaClaimMax 15 4 1 [3, 5, 3, 5] = 1 ∧
    calcOmegamaxVal 15 4 1 [3, 5, 3, 5] ≠ omegaClaimMax 15 4 1 [3, 5, 3, 5] := by
  with_unfolding_all decide

theorem wallPopStep_numSnps (nsamples : ℕ) (masks : ℕ → ℕ) (t : ℕ) (s : WallState)
    (p j : ℕ) :
    (wallPopStep nsamples masks t s p).numSnps j
      = if p = j ∧ wallPolyCond nsamples (masks p) t then s.numSnps j + 1
        else s.numSnps j := by
  by_cases hp : p = j
  · subst hp
    by_cases hpoly : 0 < (wallTypeOf nsamples t (masks p)).1 ∧
        (wallTypeOf nsamples t (masks p)).1 < masks p
    · have hcond : wallPolyCond nsamples (masks p) t = true := by
        simp [wallPolyCond, hpoly.1, hpoly.2]
      rw [if_pos ⟨rfl, hcond⟩]
      unfold wallPopStep
      simp only [hpoly, if_true]
      split_ifs <;> simp_all [Function.update_same]
    · have hcond : ¬ (wallPolyCond nsamples (masks p) t = true) := by
        simp only [wallPolyCond, decide_eq_true_eq]
        exact hpoly
      rw [if_neg (by simp [hcond])]
      unfold wallPopStep
      simp only [hpoly, if_false]
  · rw [if_neg (by simp [hp])]
    have hne : j ≠ p := fun h => hp h.symm
    simp only [wallPopStep]
    split_ifs <;> simp [Function.update_noteq hne]

theorem wallPopsFold_numSnps_of_not_mem (nsamples : ℕ) (masks : ℕ → ℕ) (t : ℕ)
    (l : List ℕ) (s : WallState) (j : ℕ) (hj : j ∉ l) :
    ((l.foldl (wallPopStep nsamples masks t) s).numSnps j) = s.numSnps j := by
  induction l generalizing s with
  | nil => rfl
  | cons p l ih =>
      rw [List.foldl_cons, ih _ (fun h => hj (List.mem_cons_of_mem p h))]
      rw [wallPopStep_numSnps]
      rw [if_neg]
      intro hc
      exact hj (hc.1 ▸ List.mem_cons_self p l)

theorem wallPopsFold_numSnps (nsamples : ℕ) (masks : ℕ → ℕ) (t : ℕ)
    (l : List ℕ) (s : WallState) (j : ℕ) (hnd : l.Nodup) (hj : j ∈ l) :
    ((l.foldl (wallPopStep nsamples masks t) s).numSnps j)
      = s.numSnps j + (if wallPolyCond nsamples (masks j) t then 1 else 0) := by
  induction l generalizing s with
  | nil => cases hj
  | cons p l ih =>
      rw [List.foldl_cons]
      rcases List.mem_cons.mp hj with hpj | hmem
      · subst hpj
        rw [wallPopsFold_numSnps_of_not_mem _ _ _ _ _ _ (List.Nodup.not_mem hnd)]
        rw [wallPopStep_numSnps]
        by_cases hw : wallPolyCond nsamples (masks j) t <;> simp [hw]
      · have hpne : p ≠ j := by
          rintro rfl
          exact (List.Nodup.not_mem hnd) hmem
        rw [ih _ (List.Nodup.of_cons hnd) hmem]
        rw [wallPopStep_numSnps, if_neg (fun hc => hpne hc.1)]

theorem wallSitesFold_numSnps (nsamples npops : ℕ) (masks : ℕ → ℕ)
    (types : List ℕ) (s : WallState) (j : ℕ) (hj : j < npops) :
    ((types.foldl (wallSiteStep nsamples npops masks) s).numSnps j)
      = s.numSnps j + types.countP (wallPolyCond nsamples (masks j)) := by
  induction types generalizing s with
  | nil => simp
  | cons t types ih =>
      rw [List.foldl_cons, ih, List.countP_cons]
      unfold wallSiteStep
      rw [wallPopsFold_numSnps nsamples masks t _ _ _ (List.nodup_range npops)
        (List.mem_range.mpr hj)]
      omega

theorem wallFold_numSnps (nsamples npops : ℕ) (masks : ℕ → ℕ) (types : List ℕ)
    (j : ℕ) (hj : j < npops) :
    (wallFold nsamples npops masks types).numSnps j
      = wallPolyCount nsamples (masks j) types := by
  unfold wallFold wallPolyCount
  by_cases h : types.length < 1
  · have : types = [] := List.length_eq_zero.mp (by omega)
    subst this
    simp [wallInit]
  · rw [if_neg h, wallSitesFold_numSnps nsamples npops masks types wallInit j hj]
    simp [wallInit]

theorem numSnpsZns_le (mask n minFreq : ℕ) (types : List ℕ) :
    numSnpsZns mask n minFreq types ≤ qualCount mask n minFreq types + 1 := by
  unfold numSnpsZns qualCount
  by_cases h : types.length < 1
  · simp [h]
  · rw [if_neg h]
    have hne : types ≠ [] := by
      intro he
      subst he
      simp at h
    have := countP_dropLast_add (qualSite mask n minFreq) types hne
    omega

/-- C5 (amended): `print_ld` prints `NA` for a population exactly when
its `num_snps` counter is below the user parameter `min_snps`.  For Zns
and omega-max the counter can exceed the number of qualifying sites by
one, so "fewer than 2 qualifying SNPs" forces `NA` only when
`min_snps ≥ 3` (the default is 10); for Wall's B/Q the counter is the
exact polymorphic-site count, for which `min_snps ≥ 3` also suffices. -/
theorem C5_na_gate :
    ∀ (mask n minFreq : ℕ) (types : List ℕ) (nsamples npops : ℕ) (masks : ℕ → ℕ)
      (j : ℕ) (minSnps : ℤ), 3 ≤ minSnps → j < npops →
      (qualCount mask n minFreq types < 2 →
        reportZns mask n minFreq types minSnps = none ∧
        reportOmax mask n minFreq types minSnps = none) ∧
      (wallPolyCount nsamples (masks j) types < 2 →
        reportWall nsamples npops masks types j minSnps = none) := by
  intro mask n minFreq types nsamples npops masks j minSnps hmin hj
  constructor
  · intro hq
    have hle := numSnpsZns_le mask n minFreq types
    have hlt : (numSnpsZns mask n minFreq types : ℤ) < minSnps := by
      have : numSnpsZns mask n minFreq types < 3 := by omega
      omega
    constructor
    · rw [reportZns, if_pos hlt]
    · rw [reportOmax, if_pos hlt]
  · intro hw
    have hns := wallFold_numSnps nsamples npops masks types j hj
    have hlt : ((wallFold nsamples npops masks types).numSnps j : ℤ) < minSnps := by
      rw [hns]
      omega
    rw [reportWall, if_pos hlt]

theorem C5_na_gate_witness :
    reportZns 1023 10 1 [7, 0] 3 = none ∧ reportOmax 1023 10 1 [7, 0] 3 = none ∧
      reportWall 64 1 (fun _ => 1023) [7, 0] 0 3 = none :=
  ⟨((C5_na_gate 1023 10 1 [7, 0] 64 1 (fun _ => 1023) 0 3 (by decide) (by decide)).1
      (by decide)).1,
   ((C5_na_gate 1023 10 1 [7, 0] 64 1 (fun _ => 1023) 0 3 (by decide) (by decide)).1
      (by decide)).2,
   (C5_na_gate 1023 10 1 [7, 0] 64 1 (fun _ => 1023) 0 3 (by decide) (by decide)).2
      (by decide)⟩

/-- C5 counterexample: the window `[7, 0]` has exactly one qualifying
SNP for the 10-sample population (`pop_mask = 1023`), yet with
`min_snps = 2` the `num_snps` counter reaches 2 (the non-qualifying
final site is counted unconditionally) and `print_ld` prints the number
`0.00000` for Zns instead of `NA`. -/
theorem C5_na_counterexample :
    qualCount 1023 10 1 [7, 0] = 1 ∧ reportZns 1023 10 1 [7, 0] 2 = some 0 := by
  with_unfolding_all decide

/-- C8 (amended): the `NA` decision compares `ns` with the truncated
threshold `⌊len·minSites⌋`, not with the real product: `NA` holds iff
`ns < ⌊len·minSites⌋`; consequently `ns < len·minSites - 1` still
forces `NA`, and a window with `0` aligned sites is `NA` whenever
`len·minSites ≥ 1` (in particular under the default `minSites = 0.5`
for any window of length ≥ 2), but an `ns` wedged between
`⌊len·minSites⌋` and `len·minSites` is computed, not `NA`. -/
theorem C8_sfs_na :
    ∀ (ns len : ℕ) (minSites td fwh : ℚ),
      ((ns : ℚ) < (len : ℚ) * minSites - 1 →
        calcSfsPopReport ns len minSites td fwh = (none, none)) ∧
      (calcSfsPopReport ns len minSites td fwh = (none, none)
        ↔ ns < (⌊(len : ℚ) * minSites⌋).toNat) ∧
      (1 ≤ (len : ℚ) * minSites →
        calcSfsPopReport 0 len minSites td fwh = (none, none)) := by
  intro ns len minSites td fwh
  have hiff : ∀ m : ℕ, calcSfsPopReport m len minSites td fwh = (none, none)
      ↔ m < (⌊(len : ℚ) * minSites⌋).toNat := by
    intro m
    unfold calcSfsPopReport sfsNA
    by_cases h : (⌊(len : ℚ) * minSites⌋).toNat ≤ m
    · simp [h]
      omega
    · simp [h]
      omega
  refine ⟨?_, hiff ns, ?_⟩
  · intro hlt
    rw [hiff ns]
    have h1 : (ns : ℚ) < (⌊(len : ℚ) * minSites⌋ : ℚ) := by
      have := Int.sub_one_lt_floor ((len : ℚ) * minSites)
      linarith
    have h2 : (ns : ℤ) < ⌊(len : ℚ) * minSites⌋ := by exact_mod_cast h1
    omega
  · intro hge
    rw [hiff 0]
    have h1 : (1 : ℤ) ≤ ⌊(len : ℚ) * minSites⌋ := by
      rw [Int.le_floor]
      exact_mod_cast hge
    omega

theorem C8_sfs_na_witness :
    calcSfsPopReport 0 6 (1 / 2) 0 0 = (none, none) ∧
      calcSfsPopReport 0 4 (1 / 2) 0 0 = (none, none) :=
  ⟨(C8_sfs_na 0 6 (1 / 2) 0 0).1 (by norm_num),
   (C8_sfs_na 0 4 (1 / 2) 0 0).2.2 (by norm_num)⟩

/-- C8 counterexample: for a window of length 5 with `min_sites = 0.5`
the real threshold is 2.5, so `ns = 2` is "below minSites times the
window length"; but the code compares with the truncated threshold
`(unsigned long)(2.5) = 2` and computes the statistics instead of
reporting `NA`. -/
theorem C8_sfs_na_counterexample :
    ((2 : ℚ) < (5 : ℚ) * (1 / 2)) ∧
      calcSfsPopReport 2 5 (1 / 2) 0 0 = (some 0, some 0) := by
  constructor
  · norm_num
  · with_unfolding_all decide

theorem glStep_inv (q : ℕ → ℚ) (seen : List ℕ) (s : GlScan) (j : ℕ)
    (hj : j ∉ seen) (hqj : q j < fltMax) (h : GlInv q seen s) :
    GlInv q (seen ++ [j]) (glStep q s j) := by
  obtain ⟨h1, h2, h3, h4, h5⟩ := h
  unfold glStep
  by_cases c1 : q j < s.mn
  · rw [if_pos c1]
    refine ⟨le_of_lt c1, ?_, ?_, ?_, ?_⟩
    · intro i hi
      rcases List.mem_append.mp hi with hi | hi
      · exact (le_of_lt c1).trans (h2 i hi)
      · rw [List.mem_singleton.mp hi]
    · exact Or.inr ⟨List.mem_append_right _ (List.mem_singleton_self j), rfl⟩
    · intro i hi hne
      rcases List.mem_append.mp hi with hi | hi
      · exact h2 i hi
      · exact absurd (List.mem_singleton.mp hi) hne
    · rcases h3 with h3 | h3
      · exact Or.inl h3
      · exact Or.inr ⟨s.idx, List.mem_append_left _ h3.1,
          fun he => hj ((show s.idx = j from he) ▸ h3.1), h3.2⟩
  · by_cases c2 : q j < s.mnext
    · rw [if_neg c1, if_pos c2]
      have hc1 : s.mn ≤ q j := not_lt.mp c1
      have h3r : s.idx ∈ seen ∧ q s.idx = s.mn := by
        rcases h3 with h3 | h3
        · exact absurd (h3 ▸ hqj) (lt_irrefl fltMax ∘ lt_of_le_of_lt (h3 ▸ hc1))
        · exact h3
      refine ⟨hc1, ?_, ?_, ?_, ?_⟩
      · intro i hi
        rcases List.mem_append.mp hi with hi | hi
        · exact h2 i hi
        · rw [List.mem_singleton.mp hi]; exact hc1
      · exact Or.inr ⟨List.mem_append_left _ h3r.1, h3r.2⟩
      · intro i hi hne
        rcases List.mem_append.mp hi with hi | hi
        · exact (le_of_lt c2).trans (h4 i hi hne)
        · rw [List.mem_singleton.mp hi]
      · exact Or.inr ⟨j, List.mem_append_right _ (List.mem_singleton_self j),
          fun he => hj ((show j = s.idx from he) ▸ h3r.1), rfl⟩
    · rw [if_neg c1, if_neg c2]
      have hc2 : s.mnext ≤ q j := not_lt.mp c2
      refine ⟨h1, ?_, ?_, ?_, ?_⟩
      · intro i hi
        rcases List.mem_append.mp hi with hi | hi
        · exact h2 i hi
        · rw [List.mem_singleton.mp hi]; exact h1.trans hc2
      · rcases h3 with h3 | h3
        · exact Or.inl h3
        · exact Or.inr ⟨List.mem_append_left _ h3.1, h3.2⟩
      · intro i hi hne
        rcases List.mem_append.mp hi with hi | hi
        · exact h4 i hi hne
        · rw [List.mem_singleton.mp hi]; exact hc2
      · rcases h5 with h5 | h5
        · exact Or.inl h5
        · obtain ⟨i, hi, hine, hiq⟩ := h5
          exact Or.inr ⟨i, List.mem_append_left _ hi, hine, hiq⟩

theorem glFold_inv (q : ℕ → ℚ) (rest : List ℕ) :
    ∀ (seen : List ℕ) (s : GlScan), (seen ++ rest).Nodup →
      (∀ i ∈ rest, q i < fltMax) → GlInv q seen s →
      GlInv q (seen ++ rest) (rest.foldl (glStep q) s) := by
  induction rest with
  | nil =>
      intro seen s _ _ h
      simpa using h
  | cons j rest ih =>
      intro seen s hnd hq h
      rw [List.foldl_cons]
      have hj : j ∉ seen := by
        intro hmem
        exact (List.disjoint_of_nodup_append hnd) hmem (List.mem_cons_self j rest)
      have hstep := glStep_inv q seen s j hj (hq j (List.mem_cons_self j rest)) h
      have hnd2 : ((seen ++ [j]) ++ rest).Nodup := by
        have he : (seen ++ [j]) ++ rest = seen ++ j :: rest := by simp
        rw [he]
        exact hnd
      have := ih (seen ++ [j]) (glStep q s j) hnd2
        (fun i hi => hq i (List.mem_cons_of_mem j hi)) hstep
      have he : (seen ++ [j]) ++ rest = seen ++ j :: rest := by simp
      rw [he] at this
      exact this

theorem glScan_inv (q : ℕ → ℚ) (hq : ∀ i ∈ glPairs, q i < fltMax) :
    GlInv q glPairs (glScan q) := by
  have h0 : GlInv q [] ⟨fltMax, fltMax, 0⟩ :=
    ⟨le_refl _, fun i hi => absurd hi (List.not_mem_nil i),
      Or.inl rfl, fun i hi => absurd hi (List.not_mem_nil i), Or.inl rfl⟩
  have := glFold_inv q glPairs [] ⟨fltMax, fltMax, 0⟩ (by decide) hq h0
  simpa [glScan] using this

theorem cw_decode_fields (sq k g : ℕ) (hk : k < 65536) (hg : g < 256) :
    cwDepth ((sq <<< 32 + k <<< 16 + g <<< 8) % 18446744073709551616) = k ∧
    cwGeno ((sq <<< 32 + k <<< 16 + g <<< 8) % 18446744073709551616) = g ∧
    cwConf ((sq <<< 32 + k <<< 16 + g <<< 8) % 18446744073709551616)
      = sq % 65536 := by
  unfold cwDepth cwGeno cwConf
  simp only [Nat.shiftLeft_eq, Nat.shiftRight_eq_div_pow]
  norm_num
  omega

/-- C3 (amended): `gl2cns` is deterministic, and decoding the depth and
genotype fields of the returned word recovers the depth and the
scan-minimal genotype pair exactly; the confidence field however holds
the rounded likelihood gap reduced modulo `2^16` (the code does not
clamp, `pop_utils.cpp` line 74).  The scan state is characterised: `mn`
is the minimum over the ten genotype-pair likelihoods, attained at
`min_ij`, and `mnext` is the minimum over the remaining nine. -/
theorem C3_gl2cns_roundtrip :
    ∀ (q : ℕ → ℚ) (k : ℕ), k < 65536 → (∀ i ∈ glPairs, q i < fltMax) →
      gl2cns q k = gl2cns q k ∧
      cwDepth (gl2cns q k) = k ∧
      cwGeno (gl2cns q k) = (glScan q).idx ∧
      cwConf (gl2cns q k) = glGap q % 65536 ∧
      (glScan q).idx ∈ glPairs ∧
      q (glScan q).idx = (glScan q).mn ∧
      (∀ i ∈ glPairs, (glScan q).mn ≤ q i) ∧
      (glScan q).mn ≤ (glScan q).mnext ∧
      (∀ i ∈ glPairs, i ≠ (glScan q).idx → (glScan q).mnext ≤ q i) ∧
      (∃ i ∈ glPairs, i ≠ (glScan q).idx ∧ q i = (glScan q).mnext) := by
  intro q k hk hq
  obtain ⟨h1, h2, h3, h4, h5⟩ := glScan_inv q hq
  have hmem0 : (0 : ℕ) ∈ glPairs := by decide
  have hmn_lt : (glScan q).mn < fltMax := lt_of_le_of_lt (h2 0 hmem0) (hq 0 hmem0)
  have h3r : (glScan q).idx ∈ glPairs ∧ q (glScan q).idx = (glScan q).mn := by
    rcases h3 with h3 | h3
    · exact absurd (h3 ▸ hmn_lt) (lt_irrefl fltMax)
    · exact h3
  have hidx_lt : (glScan q).idx < 256 := by
    have : ∀ i ∈ glPairs, i < 256 := by decide
    exact this _ h3r.1
  have hdec := cw_decode_fields (glGap q) k (glScan q).idx hk hidx_lt
  have h5r : ∃ i ∈ glPairs, i ≠ (glScan q).idx ∧ q i = (glScan q).mnext := by
    rcases h5 with h5 | h5
    · exfalso
      have hmem1 : (1 : ℕ) ∈ glPairs := by decide
      by_cases hc : (glScan q).idx = 0
      · have := h4 1 hmem1 (by rw [hc]; decide)
        rw [h5] at this
        exact absurd (lt_of_le_of_lt this (hq 1 hmem1)) (lt_irrefl fltMax)
      · have := h4 0 hmem0 (fun he => hc he.symm)
        rw [h5] at this
        exact absurd (lt_of_le_of_lt this (hq 0 hmem0)) (lt_irrefl fltMax)
    · exact h5
  exact ⟨rfl, hdec.1, hdec.2.1, hdec.2.2, h3r.1, h3r.2, h2, h1, h4, h5r⟩

theorem C3_gl2cns_roundtrip_witness :
    cwDepth (gl2cns qZeros 7) = 7 ∧
      cwGeno (gl2cns qZeros 7) = (glScan qZeros).idx ∧
      cwConf (gl2cns qZeros 7) = glGap qZeros % 65536 :=
  ⟨(C3_gl2cns_roundtrip qZeros 7 (by decide)
      (fun i _ => by norm_num [qZeros, fltMax])).2.1,
   (C3_gl2cns_roundtrip qZeros 7 (by decide)
      (fun i _ => by norm_num [qZeros, fltMax])).2.2.1,
   (C3_gl2cns_roundtrip qZeros 7 (by decide)
      (fun i _ => by norm_num [qZeros, fltMax])).2.2.2.1⟩

set_option maxRecDepth 10000 in
/-- C3 counterexample: with likelihoods `q[0] = 0` and `q[i] = 65536`
elsewhere and depth 5, the rounded gap is `65536`; a 16-bit clamp would
store `65535`, but the code stores `65536 mod 2^16 = 0` in the
confidence field. -/
theorem C3_gl2cns_counterexample :
    glGap qBigGap = 65536 ∧
      cwConf (gl2cns qBigGap 5) = 0 ∧
      confClampSpec qBigGap = 65535 ∧
      cwConf (gl2cns qBigGap 5) ≠ confClampSpec qBigGap := by
  with_unfolding_all decide

theorem cwA1_lt (cb : ℕ) : cwA1 cb < 4 := Nat.mod_lt _ (by norm_num)

theorem cwA2_lt (cb : ℕ) : cwA2 cb < 4 := Nat.mod_lt _ (by norm_num)

theorem cw_decompose (cb : ℕ) :
    cb = cb / 4096 * 4096 + cwA1 cb * 1024 + cwA2 cb * 256 + cb % 256 := by
  unfold cwA1 cwA2 cwGenoByte
  simp only [Nat.shiftRight_eq_div_pow]
  norm_num
  omega

theorem packField (hi a1 a2 lo : ℕ) (ha1 : a1 < 4) (ha2 : a2 < 4) (hlo : lo < 256) :
    cwA1 (hi * 4096 + a1 * 1024 + a2 * 256 + lo) = a1 ∧
    cwA2 (hi * 4096 + a1 * 1024 + a2 * 256 + lo) = a2 := by
  unfold cwA1 cwA2 cwGenoByte
  simp only [Nat.shiftRight_eq_div_pow]
  norm_num
  omega

theorem u64add_pack1024 (hi a1 a2 b2 lo : ℕ) (ha1 : a1 < 4) (ha2 : a2 < 4)
    (hb2 : b2 < 4) (hlo : lo < 256)
    (hw : hi * 4096 + a1 * 1024 + b2 * 256 + lo < 18446744073709551616) :
    u64add (hi * 4096 + a1 * 1024 + b2 * 256 + lo) (((a2 : ℤ) - (a1 : ℤ)) * 1024)
      = hi * 4096 + a2 * 1024 + b2 * 256 + lo := by
  unfold u64add
  omega

theorem u64add_pack256 (hi b1 a1 a2 lo : ℕ) (hb1 : b1 < 4) (ha1 : a1 < 4)
    (ha2 : a2 < 4) (hlo : lo < 256)
    (hw : hi * 4096 + b1 * 1024 + a2 * 256 + lo < 18446744073709551616) :
    u64add (hi * 4096 + b1 * 1024 + a2 * 256 + lo) (-(((a2 : ℤ) - (a1 : ℤ)) * 256))
      = hi * 4096 + b1 * 1024 + a1 * 256 + lo := by
  unfold u64add
  omega

theorem cleanHet_add1024_fields (cb : ℕ) (hcb : cb < 18446744073709551616) :
    cwA1 (u64add cb (((cwA2 cb : ℤ) - (cwA1 cb : ℤ)) * 1024)) = cwA2 cb ∧
    cwA2 (u64add cb (((cwA2 cb : ℤ) - (cwA1 cb : ℤ)) * 1024)) = cwA2 cb := by
  have h1 := cwA1_lt cb
  have h2 := cwA2_lt cb
  have h3 : cb % 256 < 256 := Nat.mod_lt _ (by norm_num)
  obtain ⟨A, hA⟩ : ∃ A, cwA1 cb = A := ⟨_, rfl⟩
  obtain ⟨B, hB⟩ : ∃ B, cwA2 cb = B := ⟨_, rfl⟩
  have hdec := cw_decompose cb
  rw [hA] at h1 hdec ⊢
  rw [hB] at h2 hdec ⊢
  rw [hdec]
  rw [u64add_pack1024 (cb / 4096) A B B (cb % 256) h1 h2 h2 h3 (hdec ▸ hcb)]
  exact ⟨(packField _ B B _ h2 h2 h3).1, (packField _ B B _ h2 h2 h3).2⟩

theorem cleanHet_sub256_fields (w : ℕ) (a1 : ℕ) (ha1 : a1 < 4)
    (hw : w < 18446744073709551616) :
    cwA1 (u64add w (-(((cwA2 w : ℤ) - (a1 : ℤ)) * 256))) = cwA1 w ∧
    cwA2 (u64add w (-(((cwA2 w : ℤ) - (a1 : ℤ)) * 256))) = a1 := by
  have h1 := cwA1_lt w
  have h2 := cwA2_lt w
  have h3 : w % 256 < 256 := Nat.mod_lt _ (by norm_num)
  obtain ⟨A, hA⟩ : ∃ A, cwA1 w = A := ⟨_, rfl⟩
  obtain ⟨B, hB⟩ : ∃ B, cwA2 w = B := ⟨_, rfl⟩
  have hdec := cw_decompose w
  rw [hA] at h1 hdec ⊢
  rw [hB] at h2 hdec ⊢
  rw [hdec]
  rw [u64add_pack256 (w / 4096) A a1 B (w % 256) h1 ha1 h2 h3 (hdec ▸ hw)]
  exact ⟨(packField _ A a1 _ h1 ha1 h3).1, (packField _ A a1 _ h1 ha1 h3).2⟩

theorem u64add_lt (x : ℕ) (d : ℤ) : u64add x d < 18446744073709551616 := by
  unfold u64add
  omega

/-- C4 (amended): `cleanHeterozygotes` resolves a heterozygous call to
a homozygous one only when one of its alleles is the reference base:
with SNP confidence ≥ `minSNPQ` it collapses to the non-reference
allele, with confidence below the threshold to the reference allele.
A heterozygote between two non-reference alleles is left heterozygous:
unchanged in the high-confidence branch, and with its two alleles
swapped in the low-confidence branch (`pop_utils.cpp` lines 169-183
only treat the allele that equals `iupac_rev[ref]`). -/
theorem C4_clean_het (cb ref minQ : ℕ) (hcb : cb < 18446744073709551616)
    (hhet : cwA1 cb ≠ cwA2 cb) :
    (minQ ≤ cwSnpQ cb →
      (cwA1 cb = ref →
        cwA1 (cleanHetOne ref minQ cb) = cwA2 cb ∧
        cwA2 (cleanHetOne ref minQ cb) = cwA2 cb) ∧
      (cwA2 cb = ref →
        cwA1 (cleanHetOne ref minQ cb) = cwA1 cb ∧
        cwA2 (cleanHetOne ref minQ cb) = cwA1 cb) ∧
      (cwA1 cb ≠ ref → cwA2 cb ≠ ref → cleanHetOne ref minQ cb = cb)) ∧
    (cwSnpQ cb < minQ →
      ((cwA1 cb = ref ∨ cwA2 cb = ref) →
        cwA1 (cleanHetOne ref minQ cb) = ref ∧
        cwA2 (cleanHetOne ref minQ cb) = ref) ∧
      (cwA1 cb ≠ ref → cwA2 cb ≠ ref →
        cwA1 (cleanHetOne ref minQ cb) = cwA2 cb ∧
        cwA2 (cleanHetOne ref minQ cb) = cwA1 cb)) := by
  constructor
  · intro hq
    have c_hq : (cwA1 cb ≠ cwA2 cb ∧ minQ ≤ cwSnpQ cb) = True := eq_true ⟨hhet, hq⟩
    have c_lq : (cwA1 cb ≠ cwA2 cb ∧ cwSnpQ cb < minQ) = False :=
      eq_false (fun hc => absurd hq (not_le.mpr hc.2))
    refine ⟨?_, ?_, ?_⟩
    · intro h1
      have hne2 : ¬ (cwA2 cb = ref) := fun he => hhet (h1.trans he.symm)
      have c1 : (cwA1 cb = ref) = True := eq_true h1
      have c2 : (cwA2 cb = ref) = False := eq_false hne2
      simp only [cleanHetOne, c_hq, c_lq, c1, c2, if_true, if_false]
      exact cleanHet_add1024_fields cb hcb
    · intro h2
      have hne1 : ¬ (cwA1 cb = ref) := fun he => hhet (he.trans h2.symm)
      have c1 : (cwA1 cb = ref) = False := eq_false hne1
      have c2 : (cwA2 cb = ref) = True := eq_true h2
      simp only [cleanHetOne, c_hq, c_lq, c1, c2, if_true, if_false]
      exact cleanHet_sub256_fields cb (cwA1 cb) (cwA1_lt cb) hcb
    · intro hne1 hne2
      have c1 : (cwA1 cb = ref) = False := eq_false hne1
      have c2 : (cwA2 cb = ref) = False := eq_false hne2
      simp only [cleanHetOne, c_hq, c_lq, c1, c2, if_true, if_false]
  · intro hlq
    have c_hq : (cwA1 cb ≠ cwA2 cb ∧ minQ ≤ cwSnpQ cb) = False :=
      eq_false (fun hc => absurd hlq (not_lt.mpr hc.2))
    have c_lq : (cwA1 cb ≠ cwA2 cb ∧ cwSnpQ cb < minQ) = True := eq_true ⟨hhet, hlq⟩
    constructor
    · intro hor
      rcases hor with h1 | h2
      · have hne2 : ¬ (cwA2 cb = ref) := fun he => hhet (h1.trans he.symm)
        have c1 : (cwA1 cb ≠ ref) = False := eq_false (fun hc => hc h1)
        have c2 : (cwA2 cb ≠ ref) = True := eq_true hne2
        simp only [cleanHetOne, c_hq, c_lq, c1, c2, if_true, if_false]
        have := cleanHet_sub256_fields cb (cwA1 cb) (cwA1_lt cb) hcb
        rw [← h1]
        exact this
      · have hne1 : ¬ (cwA1 cb = ref) := fun he => hhet (he.trans h2.symm)
        have c1 : (cwA1 cb ≠ ref) = True := eq_true hne1
        have c2 : (cwA2 cb ≠ ref) = False := eq_false (fun hc => hc h2)
        simp only [cleanHetOne, c_hq, c_lq, c1, c2, if_true, if_false]
        have := cleanHet_add1024_fields cb hcb
        rw [← h2]
        exact this
    · intro hne1 hne2
      have c1 : (cwA1 cb ≠ ref) = True := eq_true hne1
      have c2 : (cwA2 cb ≠ ref) = True := eq_true hne2
      simp only [cleanHetOne, c_hq, c_lq, c1, c2, if_true, if_false]
      obtain ⟨hw1, hw2⟩ := cleanHet_add1024_fields cb hcb
      have hwlt := u64add_lt cb (((cwA2 cb : ℤ) - (cwA1 cb : ℤ)) * 1024)
      have hsub := cleanHet_sub256_fields
        (u64add cb (((cwA2 cb : ℤ) - (cwA1 cb : ℤ)) * 1024)) (cwA1 cb)
        (cwA1_lt cb) hwlt
      rw [hw2] at hsub
      exact ⟨hsub.1.trans hw1, hsub.2⟩

theorem C4_clean_het_witness :
    cwA1 (cleanHetOne 0 25 128849019136) = cwA2 128849019136 ∧
      cwA2 (cleanHetOne 0 25 128849019136) = cwA2 128849019136 :=
  ((C4_clean_het 128849019136 0 25 (by decide) (by decide)).1 (by decide)).1
    (by decide)

/-- C4 counterexample: the call word `0x1E00000100` has genotype
alleles `(0, 1)` (an A/C heterozygote), SNP confidence 30 ≥ minSNPQ =
25, and the reference base code is 2 (G).  Neither allele matches the
reference, so `cleanHeterozygotes` leaves the word unchanged and the
sample stays heterozygous, contradicting the claim that every
heterozygous input is resolved to a homozygote. -/
theorem C4_clean_het_counterexample :
    cwA1 128849019136 = 0 ∧ cwA2 128849019136 = 1 ∧
      cwSnpQ 128849019136 = 30 ∧
      cwA1 (cleanHetOne 2 25 128849019136)
        ≠ cwA2 (cleanHetOne 2 25 128849019136) := by decide

theorem two_mem_one_lt_length {α : Type} {l : List α} {a b : α}
    (ha : a ∈ l) (hb : b ∈ l) (hab : a ≠ b) : 1 < l.length := by
  rcases l with _ | ⟨x, _ | ⟨y, t⟩⟩
  · cases ha
  · rw [List.mem_singleton.mp ha, List.mem_singleton.mp hb] at hab
    exact absurd rfl hab
  · simp only [List.length_cons]
    omega

/-- C7: if two samples are tallied by `segBase` as homozygous
high-confidence non-reference calls for two distinct bases, `segBase`
returns the multi-allelic rejection signal `-1` (never a positive
derived-allele count). -/
theorem C7_segbase_multiallelic
    (cbs : List ℕ) (ref minQ : ℕ) (c1 c2 : ℕ)
    (h1 : c1 ∈ cbs) (h2 : c2 ∈ cbs)
    (hs1 : segCond ref minQ c1 = true) (hs2 : segCond ref minQ c2 = true)
    (hne : cwA1 c1 ≠ cwA1 c2) :
    (segBase ref minQ cbs).2 = -1 := by
  have hm1 : cwA1 c1 ∈ segBaseTally ref minQ cbs :=
    List.mem_map_of_mem cwA1 (List.mem_filter.mpr ⟨h1, hs1⟩)
  have hm2 : cwA1 c2 ∈ segBaseTally ref minQ cbs :=
    List.mem_map_of_mem cwA1 (List.mem_filter.mpr ⟨h2, hs2⟩)
  have hc1 : 0 < segBaseCount ref minQ cbs (cwA1 c1) :=
    List.count_pos_iff.mpr hm1
  have hc2 : 0 < segBaseCount ref minQ cbs (cwA1 c2) :=
    List.count_pos_iff.mpr hm2
  have hmf1 : cwA1 c1 ∈ (List.range 4).filter
      (fun b => decide (0 < segBaseCount ref minQ cbs b)) :=
    List.mem_filter.mpr ⟨List.mem_range.mpr (cwA1_lt c1), by simpa using hc1⟩
  have hmf2 : cwA1 c2 ∈ (List.range 4).filter
      (fun b => decide (0 < segBaseCount ref minQ cbs b)) :=
    List.mem_filter.mpr ⟨List.mem_range.mpr (cwA1_lt c2), by simpa using hc2⟩
  have hj : 1 < (List.range 4).countP
      (fun b => decide (0 < segBaseCount ref minQ cbs b)) := by
    rw [List.countP_eq_length_filter]
    exact two_mem_one_lt_length hmf1 hmf2 hne
  unfold segBase
  rw [if_pos hj]

theorem C7_segbase_multiallelic_witness :
    (segBase 0 25 [128849020160, 128849021440]).2 = -1 :=
  C7_segbase_multiallelic [128849020160, 128849021440] 0 25
    128849020160 128849021440 (by decide) (by decide) (by decide) (by decide)
    (by decide)

/-- C9: `errmod_cal` is total and never signals an error: the guard
`m > m` is false for every `m`, so the `-1` branch is unreachable and
the function returns 0; when the observation count is zero the
likelihood buffer is all zeros. -/
theorem C9_errmod_cal_total :
    ∀ (em : ErrmodCoef) (m : ℕ) (bases : List ℕ)
      (shuffle : List ℕ → List ℕ),
      ¬ (m > m) ∧
      (errmodCal em m bases shuffle).1 = 0 ∧
      (bases = [] → ∀ idx, (errmodCal em m bases shuffle).2 idx = 0) := by
  intro em m bases shuffle
  refine ⟨lt_irrefl m, ?_, ?_⟩
  · rw [errmodCal, if_neg (lt_irrefl m)]
    by_cases h : bases.length = 0
    · rw [if_pos h]
    · rw [if_neg h]
  · intro hb idx
    subst hb
    rw [errmodCal, if_neg (lt_irrefl m)]
    simp

theorem C9_errmod_cal_total_witness :
    (errmodCal emZeros 4 [] id).1 = 0 ∧ (errmodCal emZeros 4 [] id).2 5 = 0 :=
  ⟨(C9_errmod_cal_total emZeros 4 [] id).2.1,
   (C9_errmod_cal_total emZeros 4 [] id).2.2 rfl 5⟩

theorem makeLdStep_seg_types (cfg : LdCfg) (s : LdState) (col : ℕ × List ℕ)
    (h : s.segsites = s.typesBuf.length) :
    (makeLdStep cfg s col).segsites = (makeLdStep cfg s col).typesBuf.length := by
  simp only [makeLdStep]
  split_ifs <;> simp [h]

theorem makeLdStep_seg_le (cfg : LdCfg) (s : LdState) (col : ℕ × List ℕ)
    (h : s.segsites ≤ s.numSites) :
    (makeLdStep cfg s col).segsites ≤ (makeLdStep cfg s col).numSites := by
  simp only [makeLdStep]
  split_ifs <;> (try simp) <;> omega

theorem makeLdStep_numSites_le (cfg : LdCfg) (s : LdState) (col : ℕ × List ℕ) :
    (makeLdStep cfg s col).numSites
      ≤ s.numSites + (if cfg.beg ≤ col.1 ∧ col.1 < cfg.endp then 1 else 0) := by
  simp only [makeLdStep]
  split_ifs <;> (try simp) <;> omega

theorem makeLdStep_types_extend (cfg : LdCfg) (s : LdState) (col : ℕ × List ℕ) :
    ∃ e, s.typesBuf ++ e = (makeLdStep cfg s col).typesBuf := by
  simp only [makeLdStep]
  split_ifs <;> first
    | exact ⟨_, rfl⟩
    | exact ⟨[], List.append_nil _⟩

theorem ldFold_seg_types (cfg : LdCfg) (cols : List (ℕ × List ℕ)) :
    ∀ s : LdState, s.segsites = s.typesBuf.length →
      (cols.foldl (makeLdStep cfg) s).segsites
        = (cols.foldl (makeLdStep cfg) s).typesBuf.length := by
  induction cols with
  | nil => exact fun s h => h
  | cons c cols ih =>
      intro s h
      exact ih _ (makeLdStep_seg_types cfg s c h)

theorem ldFold_seg_le (cfg : LdCfg) (cols : List (ℕ × List ℕ)) :
    ∀ s : LdState, s.segsites ≤ s.numSites →
      (cols.foldl (makeLdStep cfg) s).segsites
        ≤ (cols.foldl (makeLdStep cfg) s).numSites := by
  induction cols with
  | nil => exact fun s h => h
  | cons c cols ih =>
      intro s h
      exact ih _ (makeLdStep_seg_le cfg s c h)

theorem ldFold_numSites_le (cfg : LdCfg) (cols : List (ℕ × List ℕ)) :
    ∀ s : LdState,
      (cols.foldl (makeLdStep cfg) s).numSites
        ≤ s.numSites
          + cols.countP (fun c => decide (cfg.beg ≤ c.1 ∧ c.1 < cfg.endp)) := by
  induction cols with
  | nil => simp
  | cons c cols ih =>
      intro s
      rw [List.foldl_cons, List.countP_cons]
      have h1 := ih (makeLdStep cfg s c)
      have h2 := makeLdStep_numSites_le cfg s c
      by_cases hc : cfg.beg ≤ c.1 ∧ c.1 < cfg.endp
      · simp only [hc, if_pos, decide_eq_true_eq] at *
        omega
      · simp only [hc, if_neg, decide_eq_true_eq] at *
        omega

theorem ldFold_types_extend (cfg : LdCfg) (cols : List (ℕ × List ℕ)) :
    ∀ s : LdState, ∃ e, s.typesBuf ++ e = (cols.foldl (makeLdStep cfg) s).typesBuf := by
  induction cols with
  | nil => exact fun s => ⟨[], List.append_nil _⟩
  | cons c cols ih =>
      intro s
      obtain ⟨e1, he1⟩ := makeLdStep_types_extend cfg s c
      obtain ⟨e2, he2⟩ := ih (makeLdStep cfg s c)
      rw [List.foldl_cons]
      exact ⟨e1 ++ e2, by rw [← List.append_assoc, he1, he2]⟩

theorem countP_inRange_le (beg endp : ℕ) (ps : List ℕ) (hnd : ps.Nodup) :
    ps.countP (fun p => decide (beg ≤ p ∧ p < endp)) ≤ endp - beg := by
  rw [List.countP_eq_length_filter]
  have hsub : (ps.filter (fun p => decide (beg ≤ p ∧ p < endp)))
      ⊆ List.range' beg (endp - beg) := by
    intro p hp
    obtain ⟨-, hpr⟩ := List.mem_filter.mp hp
    simp only [decide_eq_true_eq] at hpr
    have := List.mem_range'_1.mpr (⟨hpr.1, by omega⟩ : beg ≤ p ∧ p < beg + (endp - beg))
    exact this
  have hndf : (ps.filter (fun p => decide (beg ≤ p ∧ p < endp))).Nodup :=
    hnd.filter _
  have := (hndf.subperm hsub).length_le
  simpa using this

/-- C10: assuming each genomic position is delivered at most once, the
`make_ld` driver maintains `segsites = |types| ≤ num_sites ≤ end - beg`
after every prefix of the window's columns, and the site-type buffer is
append-only: the types written by any prefix of the columns are an
unchanged initial segment of the final buffer (each entry is written at
index `segsites` exactly when `segsites` is incremented). -/
theorem C10_make_ld_invariants (cfg : LdCfg) (cols : List (ℕ × List ℕ))
    (hnd : (cols.map Prod.fst).Nodup) :
    (ldRun cfg cols).segsites = (ldRun cfg cols).typesBuf.length ∧
    (ldRun cfg cols).segsites ≤ (ldRun cfg cols).numSites ∧
    (ldRun cfg cols).numSites ≤ cfg.endp - cfg.beg ∧
    (∀ pre suf, cols = pre ++ suf →
      ∃ ext, (ldRun cfg pre).typesBuf ++ ext = (ldRun cfg cols).typesBuf) := by
  refine ⟨ldFold_seg_types cfg cols ldInit rfl,
    ldFold_seg_le cfg cols ldInit (le_refl 0), ?_, ?_⟩
  · have h1 := ldFold_numSites_le cfg cols ldInit
    have h2 : cols.countP (fun c => decide (cfg.beg ≤ c.1 ∧ c.1 < cfg.endp))
        ≤ cfg.endp - cfg.beg := by
      have hmap : cols.countP (fun c => decide (cfg.beg ≤ c.1 ∧ c.1 < cfg.endp))
          = (cols.map Prod.fst).countP (fun p => decide (cfg.beg ≤ p ∧ p < cfg.endp)) := by
        rw [List.countP_map]
        rfl
      rw [hmap]
      exact countP_inRange_le cfg.beg cfg.endp (cols.map Prod.fst) hnd
    calc (ldRun cfg cols).numSites
        ≤ ldInit.numSites
            + cols.countP (fun c => decide (cfg.beg ≤ c.1 ∧ c.1 < cfg.endp)) := h1
      _ ≤ cfg.endp - cfg.beg := by
          simp only [ldInit]
          omega
  · intro pre suf heq
    subst heq
    unfold ldRun
    rw [List.foldl_append]
    exact ldFold_types_extend cfg suf (pre.foldl (makeLdStep cfg) ldInit)

theorem C10_make_ld_invariants_witness :
    (ldRun ⟨0, 3, (fun _ => 0), 25, 25, 3, 255, false, 1, (fun _ => 1),
        (fun _ => 1)⟩ [(0, [128849020160]), (1, [0])]).segsites
      ≤ (ldRun ⟨0, 3, (fun _ => 0), 25, 25, 3, 255, false, 1, (fun _ => 1),
        (fun _ => 1)⟩ [(0, [128849020160]), (1, [0])]).numSites ∧
    (ldRun ⟨0, 3, (fun _ => 0), 25, 25, 3, 255, false, 1, (fun _ => 1),
        (fun _ => 1)⟩ [(0, [128849020160]), (1, [0])]).numSites ≤ 3 :=
  ⟨(C10_make_ld_invariants _ _ (by decide)).2.1,
   (C10_make_ld_invariants _ _ (by decide)).2.2.1⟩
